import Mathlib

/-!
Verification of the Research-Paper-Reader-AI core: the section pipeline,
the audio playback scheduler and the text utilities of
`src/services/geminiService.ts` and the React `App` component.

The embedding is shallow: the mutable refs and React state of the `App`
component become explicit record fields, each handler becomes a pure
state-transition function, network collaborators (OpenRouter, Deepgram,
pdf.js) become oracle inputs (`Except`-valued responses), and
`AudioContext.currentTime` becomes an explicit `now : ℚ` argument.
Deferred callbacks (`setTimeout`, `source.onended`) are asynchronous and
are not part of the synchronous transitions modelled here.
-/

namespace PaperReader

/-- Processing phases of the app, from `types.ts` as used by the `App`
component (`ProcessingState.IDLE`, `PARSING_PDF`, ...). -/
inductive ProcessingState where
  | IDLE
  | PARSING_PDF
  | EXTRACTING_SECTIONS
  | PROCESSING_SECTION
  | GENERATING_VOICE
  | PLAYING
  | PAUSED
  | COMPLETED
  | ERROR
  deriving DecidableEq, Repr

/-- Block kinds, from `types.ts` as used in `geminiService.ts`
(`BlockType.TEXT`, `BlockType.DESCRIPTION`). -/
inductive BlockType where
  | TEXT
  | DESCRIPTION
  deriving DecidableEq, Repr

/-- Narrator voices (`'female' | 'male'`). -/
inductive VoiceType where
  | female
  | male
  deriving DecidableEq, Repr

/-- Section lifecycle status literals used in the `App` component
(`'pending' | 'processing' | 'ready' | 'completed'`). -/
inductive SectionStatus where
  | pending
  | processing
  | ready
  | completed
  deriving DecidableEq, Repr

/-- A decoded Web-Audio `AudioBuffer`: channel count, per-channel sample
count, sample rate, and the per-channel sample data. -/
structure AudioBuffer where
  numberOfChannels : ℕ
  length : ℕ
  sampleRate : ℚ
  data : List (List ℚ)
  deriving DecidableEq, Repr

/-- `AudioBuffer.duration` is `length / sampleRate` (seconds). -/
def AudioBuffer.duration (b : AudioBuffer) : ℚ :=
  (b.length : ℚ) / b.sampleRate

/-- A `SpeechBlock` from `types.ts` as consumed by the `App` component:
id, kind, normalized content, owning section, optional decoded audio. -/
structure SpeechBlock where
  id : String
  type : BlockType
  content : String
  sectionId : String
  audioBuffer : Option AudioBuffer
  deriving DecidableEq, Repr

/-- A `PaperSection` as built in `handleFileUpload`: id, title, inclusive
1-indexed page range, blocks, lifecycle status. -/
structure PaperSection where
  id : String
  title : String
  pageStart : ℤ
  pageEnd : ℤ
  blocks : List SpeechBlock
  status : SectionStatus
  deriving DecidableEq, Repr

/-- One entry of `audioQueueRef`: the block id together with the
`AudioBufferSourceNode` it wraps, modelled by the node's two observable
attributes — its live `playbackRate.value` and the start instant passed
to `source.start(startTime)`. -/
structure QueueItem where
  id : String
  rate : ℚ
  startTime : ℚ
  deriving DecidableEq, Repr

/-- The React `AppState` record (`useState<AppState>` initialiser in the
`App` component). -/
structure AppState where
  file : Option String
  status : ProcessingState
  progress : ℚ
  totalPages : ℕ
  currentPage : ℕ
  error : Option String
  sections : List PaperSection
  currentSectionIndex : ℕ
  currentlyPlayingBlockId : Option String
  selectedVoice : VoiceType
  playbackSpeed : ℚ
  deriving DecidableEq, Repr

/-- The whole mutable world of the `App` component: the two persisted
credential strings, the key-entry flag, the React state record, and the
`useRef` cells (`audioQueueRef`, `nextStartTimeRef`, `allBlocksRef`,
`pagesTextRef`, `playbackSpeedRef`). A `nextStartTime` of `0` means the
next-start cursor is unset. -/
structure Model where
  openRouterKey : String
  deepgramKey : String
  showKeyInput : Bool
  state : AppState
  audioQueue : List QueueItem
  nextStartTime : ℚ
  allBlocks : List SpeechBlock
  pagesText : List String
  playbackSpeedRef : ℚ
  deriving DecidableEq, Repr

/-- The initial state of the `App` component with the given stored keys:
all `useState` / `useRef` initial values. -/
def initialModel (openRouterKey deepgramKey : String) : Model where
  openRouterKey := openRouterKey
  deepgramKey := deepgramKey
  showKeyInput := openRouterKey = "" ∨ deepgramKey = ""
  state :=
    { file := none
      status := .IDLE
      progress := 0
      totalPages := 0
      currentPage := 0
      error := none
      sections := []
      currentSectionIndex := 0
      currentlyPlayingBlockId := none
      selectedVoice := .female
      playbackSpeed := 1 }
  audioQueue := []
  nextStartTime := 0
  allBlocks := []
  pagesText := []
  playbackSpeedRef := 1

/-- The start instant `queueAudio` computes: the cursor (set to
`now + 0.1` when it was unset, i.e. `0`) maxed with `now`
(`Math.max(nextStartTimeRef.current, ctx.currentTime)`). -/
def schedStart (cursor now : ℚ) : ℚ :=
  max (if cursor = 0 then now + 1/10 else cursor) now

/-- `queueAudio(block)` from the `App` component. `now` models
`ctx.currentTime` at the moment of the call. A block with `null` audio
(or a missing audio context, assumed initialised here) is ignored.
Otherwise: a source node is created at the current `playbackSpeedRef`
rate; if the cursor is unset it is seeded with `now + 0.1` and the
status flips to `PLAYING` unless currently `PAUSED`; the source starts at
`max(cursor, now)`; the cursor advances by `duration / rate`; the item is
pushed onto the queue. The deferred `setTimeout` highlight update and the
`onended` handler are asynchronous callbacks, outside this transition. -/
def queueAudio (m : Model) (now : ℚ) (block : SpeechBlock) : Model :=
  match block.audioBuffer with
  | none => m
  | some buf =>
    let speed := m.playbackSpeedRef
    let st1 := if m.nextStartTime = 0 then
        (if m.state.status = .PAUSED then m.state
         else { m.state with status := .PLAYING })
      else m.state
    let startTime := schedStart m.nextStartTime now
    let duration := buf.duration / speed
    { m with
      state := st1
      nextStartTime := startTime + duration
      audioQueue := m.audioQueue ++ [⟨block.id, speed, startTime⟩] }

/-- `setPlaybackSpeed(speed)`: writes the ref, mirrors the value into the
React state, and live-updates `source.playbackRate.value` of every item
in the queue. -/
def setPlaybackSpeed (m : Model) (speed : ℚ) : Model :=
  { m with
    playbackSpeedRef := speed
    state := { m.state with playbackSpeed := speed }
    audioQueue := m.audioQueue.map (fun it => { it with rate := speed }) }

/-- `stopAudio()`: calls `source.stop()` on every queued item, empties the
queue and zeroes the next-start cursor. The second component is the list
of ids of the sources that were halted. -/
def stopAudio (m : Model) : Model × List String :=
  ({ m with audioQueue := [], nextStartTime := 0 },
   m.audioQueue.map (fun it => it.id))

/-- `reset()`: stops audio, then restores every transport field of the
state to its initial value, leaving `selectedVoice`, `playbackSpeed` and
the stored keys untouched. The second component is the list of halted
source ids. -/
def reset (m : Model) : Model × List String :=
  let p := stopAudio m
  ({ p.1 with state :=
      { p.1.state with
        file := none
        status := .IDLE
        progress := 0
        totalPages := 0
        currentPage := 0
        error := none
        sections := []
        currentSectionIndex := 0
        currentlyPlayingBlockId := none } },
   p.2)

/-- Claim C6: `stop()` halts every in-flight segment (the halted ids are
exactly the queued ids), empties the in-flight queue and resets the
next-start cursor to unset (only those two fields change); a subsequent
enqueue then schedules at `now + 0.1`, the fixed lead-in, exactly as on a
scheduler that never played. -/
theorem stopAudio_resets_scheduler (m : Model) :
    (stopAudio m).1 = { m with audioQueue := [], nextStartTime := 0 } ∧
    (stopAudio m).2 = m.audioQueue.map (fun it => it.id) ∧
    (∀ now blk buf, blk.audioBuffer = some buf →
      (queueAudio (stopAudio m).1 now blk).audioQueue.map
          (fun it => (it.id, it.startTime)) = [(blk.id, now + 1/10)] ∧
      (queueAudio (stopAudio m).1 now blk).nextStartTime =
        (now + 1/10) + buf.duration / m.playbackSpeedRef) := by
  refine ⟨rfl, rfl, ?_⟩
  intro now blk buf hbuf
  have hmax : max (now + 1/10) now = now + 1/10 := by
    apply max_eq_left; linarith
  simp [queueAudio, stopAudio, hbuf, schedStart, hmax]

/-- Witness for C6 at a concrete scheduler state and block. -/
theorem stopAudio_resets_scheduler_witness :
    (⟨"b", .TEXT, "t", "s", some ⟨1, 2, 1, [[0, 0]]⟩⟩ : SpeechBlock).audioBuffer
        = some ⟨1, 2, 1, [[0, 0]]⟩ ∧
    (queueAudio (stopAudio { initialModel "" "" with
        audioQueue := [⟨"old", 1, 5⟩], nextStartTime := 9 }).1 0
        ⟨"b", .TEXT, "t", "s", some ⟨1, 2, 1, [[0, 0]]⟩⟩).audioQueue.map
          (fun it => (it.id, it.startTime)) = [("b", 0 + 1/10)] := by
  refine ⟨rfl, ?_⟩
  exact ((stopAudio_resets_scheduler { initialModel "" "" with
      audioQueue := [⟨"old", 1, 5⟩], nextStartTime := 9 }).2.2 0
      ⟨"b", .TEXT, "t", "s", some ⟨1, 2, 1, [[0, 0]]⟩⟩ ⟨1, 2, 1, [[0, 0]]⟩ rfl).1

/-- Claim C7: `setPlaybackRate` updates the rate used for future enqueues
(the ref and the state mirror) and the live rate of every in-flight
source, while the scheduled start instants of queued items, the
next-start cursor and the active-block marker are unchanged; the next
enqueue's cursor advance uses the new rate. -/
theorem setPlaybackSpeed_frame (m : Model) (r : ℚ) :
    (setPlaybackSpeed m r).playbackSpeedRef = r ∧
    (setPlaybackSpeed m r).state.playbackSpeed = r ∧
    (∀ it ∈ (setPlaybackSpeed m r).audioQueue, it.rate = r) ∧
    (setPlaybackSpeed m r).audioQueue.map (fun it => (it.id, it.startTime)) =
      m.audioQueue.map (fun it => (it.id, it.startTime)) ∧
    (setPlaybackSpeed m r).nextStartTime = m.nextStartTime ∧
    (setPlaybackSpeed m r).state.currentlyPlayingBlockId =
      m.state.currentlyPlayingBlockId ∧
    (∀ now blk buf, blk.audioBuffer = some buf →
      (queueAudio (setPlaybackSpeed m r) now blk).nextStartTime =
        schedStart m.nextStartTime now + buf.duration / r) := by
  refine ⟨rfl, rfl, ?_, ?_, rfl, rfl, ?_⟩
  · intro it hit
    simp only [setPlaybackSpeed, List.mem_map] at hit
    obtain ⟨a, _, rfl⟩ := hit
    rfl
  · simp [setPlaybackSpeed]
  · intro now blk buf hbuf
    simp [queueAudio, setPlaybackSpeed, hbuf]

/-- Witness for C7 at a concrete scheduler state, rate and block. -/
theorem setPlaybackSpeed_frame_witness :
    ((⟨"q", 1, 3⟩ : QueueItem) ∈ (setPlaybackSpeed { initialModel "" "" with
        audioQueue := [⟨"q", 1, 3⟩] } 2).audioQueue →
      False) ∧
    (∀ it ∈ (setPlaybackSpeed { initialModel "" "" with
        audioQueue := [⟨"q", 1, 3⟩] } 2).audioQueue, it.rate = 2) ∧
    (queueAudio (setPlaybackSpeed { initialModel "" "" with
        audioQueue := [⟨"q", 1, 3⟩] } 2) 0
        ⟨"b", .TEXT, "t", "s", some ⟨1, 2, 1, [[0, 0]]⟩⟩).nextStartTime =
      schedStart 0 0 + (⟨1, 2, 1, [[0, 0]]⟩ : AudioBuffer).duration / 2 := by
  refine ⟨by decide, (setPlaybackSpeed_frame _ 2).2.2.1, ?_⟩
  exact (setPlaybackSpeed_frame { initialModel "" "" with
      audioQueue := [⟨"q", 1, 3⟩] } 2).2.2.2.2.2.2 0
      ⟨"b", .TEXT, "t", "s", some ⟨1, 2, 1, [[0, 0]]⟩⟩ ⟨1, 2, 1, [[0, 0]]⟩ rfl

/-- Claim C9 (implicit): `reset()` stops every in-flight source (returning
exactly the queued ids as halted), and the resulting world equals the old
one with the queue emptied, the cursor unset and every transport field of
the state back at its idle initial value — in particular the selected
voice, the selected playback speed and the two persisted credentials are
untouched. -/
theorem reset_restores_idle (m : Model) :
    (reset m).1 = { m with
      audioQueue := []
      nextStartTime := 0
      state := { m.state with
        file := none
        status := .IDLE
        progress := 0
        totalPages := 0
        currentPage := 0
        error := none
        sections := []
        currentSectionIndex := 0
        currentlyPlayingBlockId := none } } ∧
    (reset m).2 = m.audioQueue.map (fun it => it.id) ∧
    (reset m).1.state.selectedVoice = m.state.selectedVoice ∧
    (reset m).1.state.playbackSpeed = m.state.playbackSpeed ∧
    (reset m).1.openRouterKey = m.openRouterKey ∧
    (reset m).1.deepgramKey = m.deepgramKey := by
  exact ⟨rfl, rfl, rfl, rfl, rfl, rfl⟩

/-! ## Claim C1: contiguity of the enqueue schedule

A run of the scheduler is a list of `enq` / `setSpeed` events; `schedRun`
replays them through `queueAudio` / `setPlaybackSpeed` and records, for
each enqueue, a ghost trace entry with the observed clock, the cursor
before, the computed start instant, the effective duration
(`buffer duration / rate at enqueue time`) and the cursor after. -/

/-- An externally observable scheduler event: an enqueue of a block with
decoded audio at clock instant `now`, or a playback-rate change. -/
inductive SchedEvent where
  | enq (now : ℚ) (id : String) (buf : AudioBuffer)
  | setSpeed (r : ℚ)
  deriving DecidableEq, Repr

/-- Ghost trace entry recorded at each enqueue. -/
structure EnqEntry where
  now : ℚ
  cursorBefore : ℚ
  start : ℚ
  effDur : ℚ
  cursorAfter : ℚ
  deriving DecidableEq, Repr

/-- Well-formedness of one event: clocks are nonnegative, audio buffers
have a positive sample rate, requested rates are positive (the UI only
offers 0.75/1.0/1.25/1.5/2.0). -/
def wfEvent : SchedEvent → Bool
  | .enq now _ buf => decide (0 ≤ now) && decide (0 < buf.sampleRate)
  | .setSpeed r => decide (0 < r)

/-- Replay a list of scheduler events from a model, collecting the ghost
enqueue trace. Each `enq` builds the block `queueAudio` receives (audio
present) and records the entry from the pre- and post-states. -/
def schedRun (m : Model) : List SchedEvent → Model × List EnqEntry
  | [] => (m, [])
  | .enq now id buf :: es =>
    let m' := queueAudio m now ⟨id, .TEXT, "", "", some buf⟩
    let e : EnqEntry :=
      { now := now
        cursorBefore := m.nextStartTime
        start := schedStart m.nextStartTime now
        effDur := buf.duration / m.playbackSpeedRef
        cursorAfter := m'.nextStartTime }
    let p := schedRun m' es
    (p.1, e :: p.2)
  | .setSpeed r :: es => schedRun (setPlaybackSpeed m r) es

lemma schedRun_enq_cursor (m : Model) (now : ℚ) (id : String)
    (buf : AudioBuffer) :
    (queueAudio m now ⟨id, .TEXT, "", "", some buf⟩).nextStartTime =
      schedStart m.nextStartTime now + buf.duration / m.playbackSpeedRef := by
  simp [queueAudio]

lemma schedStart_ge_now (cursor now : ℚ) : now ≤ schedStart cursor now :=
  le_max_right _ _

lemma schedStart_ge_cursor (cursor now : ℚ) (hnow : 0 ≤ now)
    (hc : 0 ≤ cursor) : cursor ≤ schedStart cursor now := by
  unfold schedStart
  by_cases h : cursor = 0
  · subst h
    have : (0:ℚ) ≤ now + 1/10 := by linarith
    simp only [if_pos rfl]
    exact le_trans this (le_max_left _ _)
  · simp only [if_neg h]
    exact le_max_left _ _

/-- Auxiliary invariant lemma for C1: from any model with a nonnegative
cursor and positive rate, a well-formed run yields a trace in which every
entry satisfies the start/cursor formulas, entries are pairwise
contiguous, the head start is at least the initial cursor, and the final
cursor stays nonnegative. -/
lemma schedRun_spec (es : List SchedEvent) :
    ∀ m : Model, (∀ e ∈ es, wfEvent e = true) →
    0 ≤ m.nextStartTime → 0 < m.playbackSpeedRef →
    (∀ e ∈ (schedRun m es).2,
        e.start = max (if e.cursorBefore = 0 then e.now + 1/10
                       else e.cursorBefore) e.now ∧
        e.cursorAfter = e.start + e.effDur ∧ 0 ≤ e.effDur) ∧
    (schedRun m es).2.Chain' (fun a b => a.start + a.effDur ≤ b.start) ∧
    (∀ e, (schedRun m es).2.head? = some e → m.nextStartTime ≤ e.start) := by
  induction es with
  | nil => intro m _ _ _; exact ⟨by simp [schedRun], by simp [schedRun], by simp [schedRun]⟩
  | cons ev es ih =>
    intro m hwf hc hr
    have hwf_ev : wfEvent ev = true := hwf ev (List.mem_cons_self _ _)
    have hwf_es : ∀ e ∈ es, wfEvent e = true :=
      fun e he => hwf e (List.mem_cons_of_mem _ he)
    cases ev with
    | setSpeed r =>
      have hr' : 0 < r := by
        simpa [wfEvent] using hwf_ev
      have := ih (setPlaybackSpeed m r) hwf_es (by simpa [setPlaybackSpeed] using hc)
        (by simpa [setPlaybackSpeed] using hr')
      simpa [schedRun, setPlaybackSpeed] using this
    | enq now id buf =>
      have hnow : 0 ≤ now ∧ 0 < buf.sampleRate := by
        simpa [wfEvent] using hwf_ev
      -- the post-enqueue model
      set m' := queueAudio m now ⟨id, .TEXT, "", "", some buf⟩ with hm'
      have hdur : 0 ≤ buf.duration / m.playbackSpeedRef := by
        apply div_nonneg _ (le_of_lt hr)
        unfold AudioBuffer.duration
        exact div_nonneg (by positivity) (le_of_lt hnow.2)
      have hstart_now : now ≤ schedStart m.nextStartTime now :=
        schedStart_ge_now _ _
      have hstart_nonneg : 0 ≤ schedStart m.nextStartTime now :=
        le_trans hnow.1 hstart_now
      have hcursor' : m'.nextStartTime =
          schedStart m.nextStartTime now + buf.duration / m.playbackSpeedRef := by
        rw [hm']; exact schedRun_enq_cursor m now id buf
      have hc' : 0 ≤ m'.nextStartTime := by
        rw [hcursor']; linarith
      have hr' : 0 < m'.playbackSpeedRef := by
        simp only [hm', queueAudio]
        exact hr
      obtain ⟨ih1, ih2, ih3⟩ := ih m' hwf_es hc' hr'
      refine ⟨?_, ?_, ?_⟩
      · intro e he
        simp only [schedRun, List.mem_cons] at he
        rcases he with rfl | he
        · refine ⟨rfl, ?_, hdur⟩
          show m'.nextStartTime = _
          rw [hcursor']
        · exact ih1 e he
      · simp only [schedRun]
        rw [List.chain'_cons']
        refine ⟨?_, ih2⟩
        intro e he
        have h3 := ih3 e he
        rw [hcursor'] at h3
        simpa using h3
      · intro e he
        simp only [schedRun, List.head?, Option.some.injEq] at he
        rw [← he]
        exact schedStart_ge_cursor _ _ hnow.1 hc

/-- Claim C1: over any well-formed sequence of events from the initial
state, every enqueue's scheduled start equals
`max(cursor, now)` where the cursor reads `now + 0.1` when unset; the
next-start cursor after each enqueue equals that start plus the buffer
duration divided by the rate in effect at enqueue time; and consecutive
enqueues are contiguous: each start is at least the previous start plus
the previous effective duration. -/
theorem queueAudio_schedule_contiguous (es : List SchedEvent)
    (hwf : ∀ e ∈ es, wfEvent e = true) :
    (∀ e ∈ (schedRun (initialModel "" "") es).2,
        e.start = max (if e.cursorBefore = 0 then e.now + 1/10
                       else e.cursorBefore) e.now ∧
        e.cursorAfter = e.start + e.effDur) ∧
    (schedRun (initialModel "" "") es).2.Chain'
      (fun a b => a.start + a.effDur ≤ b.start) := by
  obtain ⟨h1, h2, _⟩ := schedRun_spec es (initialModel "" "") hwf
    (by simp [initialModel]) (by simp [initialModel])
  exact ⟨fun e he => ⟨(h1 e he).1, (h1 e he).2.1⟩, h2⟩

/-- Concrete two-enqueue run used by the C1 witness. -/
def demoEvents : List SchedEvent :=
  [.enq 0 "b1" ⟨1, 2, 1, [[0, 0]]⟩,
   .setSpeed 2,
   .enq 1 "b2" ⟨1, 3, 1, [[0, 0, 0]]⟩]

/-- Witness for C1: the theorem applied to a concrete well-formed run. -/
theorem queueAudio_schedule_contiguous_witness :
    (∀ e ∈ demoEvents, wfEvent e = true) ∧
    ((∀ e ∈ (schedRun (initialModel "" "") demoEvents).2,
        e.start = max (if e.cursorBefore = 0 then e.now + 1/10
                       else e.cursorBefore) e.now ∧
        e.cursorAfter = e.start + e.effDur) ∧
    (schedRun (initialModel "" "") demoEvents).2.Chain'
      (fun a b => a.start + a.effDur ≤ b.start)) :=
  ⟨by decide, queueAudio_schedule_contiguous demoEvents (by decide)⟩

/-! ## Section extraction (`extractSections` in `geminiService.ts`)

The OpenRouter fetch, `response.ok` test, JSON extraction and
`JSON.parse` all happen inside the `try` block; they are abstracted into
a single oracle `resp : Except String (List RawSection)` — `.error`
covers a request error, a non-OK response and unparseable output alike.
The sampling of pages and the prompt only feed that collaborator call and
do not influence the returned value beyond the oracle. -/

/-- A raw section as parsed from the collaborator output. -/
structure RawSection where
  title : String
  pageStart : ℤ
  pageEnd : ℤ
  deriving DecidableEq, Repr

/-- Substring test on character lists: does `pat` occur contiguously in
`l`? Models JS `String.prototype.includes`. -/
def containsSub (l pat : List Char) : Bool :=
  match l with
  | [] => pat.isEmpty
  | _ :: tl => pat.isPrefixOf l || containsSub tl pat

/-- Character list of `s.toLowerCase()`. -/
def lowerString (s : String) : List Char :=
  s.data.map Char.toLower

/-- The per-section clamp applied on the success path:
`pageStart := Math.max(1, s.pageStart)` and
`pageEnd := Math.min(allPagesText.length, s.pageEnd)`. -/
def clampSection (numPages : ℕ) (s : RawSection) : RawSection :=
  { title := s.title
    pageStart := max 1 s.pageStart
    pageEnd := min (numPages : ℤ) s.pageEnd }

/-- `extractSections` from `geminiService.ts`: on collaborator success,
drop every section whose lowercased title contains `"reference"`, then
clamp each page range; on any failure, return the single fallback
section `"Full Paper"` covering pages `1 .. allPagesText.length`. -/
def extractSections (resp : Except String (List RawSection))
    (allPagesText : List String) : List RawSection :=
  match resp with
  | .ok sections =>
    (sections.filter
        (fun s => ! containsSub (lowerString s.title) "reference".data)).map
      (clampSection allPagesText.length)
  | .error _ =>
    [{ title := "Full Paper", pageStart := 1,
       pageEnd := (allPagesText.length : ℤ) }]

/-- Claim C3: whenever the section-extraction collaborator call fails,
`extractSections` returns exactly one section, titled with the fallback
label `"Full Paper"`, spanning `pageStart = 1` to
`pageEnd = number of pages`, and the failure is never propagated (the
function is total and returns this value). -/
theorem extractSections_failure_fallback (err : String)
    (allPagesText : List String) :
    extractSections (.error err) allPagesText =
      [{ title := "Full Paper", pageStart := 1,
         pageEnd := (allPagesText.length : ℤ) }] := by
  rfl

/-- Counterexample to claim C8: with three pages and a drifted extractor
range `[5, 7]`, the returned section has `pageStart = 5`, outside
`[1, totalPages] = [1, 3]` — the code only clamps `pageStart` from below
and `pageEnd` from above. -/
theorem extractSections_clamp_counterexample :
    ¬ (∀ s ∈ extractSections (.ok [⟨"Intro", 5, 7⟩]) ["a", "b", "c"],
        1 ≤ s.pageStart ∧ s.pageStart ≤ 3 ∧ 1 ≤ s.pageEnd ∧ s.pageEnd ≤ 3) := by
  decide

/-- Claim C8 (amended): on every successful extraction over a document
with `totalPages` pages, each returned section satisfies the half-clamp
the code actually applies: `pageStart ≥ 1` and `pageEnd ≤ totalPages`
(`pageStart` is not clamped from above, `pageEnd` not from below). -/
theorem extractSections_half_clamp (sections : List RawSection)
    (allPagesText : List String) (s : RawSection)
    (hs : s ∈ extractSections (.ok sections) allPagesText) :
    1 ≤ s.pageStart ∧ s.pageEnd ≤ (allPagesText.length : ℤ) := by
  simp only [extractSections, List.mem_map] at hs
  obtain ⟨r, _, rfl⟩ := hs
  exact ⟨le_max_left _ _, min_le_left _ _⟩

/-- Witness for C8 (amended) at a concrete drifted section. -/
theorem extractSections_half_clamp_witness :
    ((⟨"Intro", 5, 3⟩ : RawSection) ∈
        extractSections (.ok [⟨"Intro", 5, 7⟩]) ["a", "b", "c"]) ∧
    (1 ≤ (5 : ℤ) ∧ (3 : ℤ) ≤ ((["a", "b", "c"] : List String).length : ℤ)) :=
  ⟨by decide,
   extractSections_half_clamp [⟨"Intro", 5, 7⟩] ["a", "b", "c"]
     ⟨"Intro", 5, 3⟩ (by decide)⟩

/-- Claim C10 (implicit): on success every surviving section's lowercased
title avoids the substring `"reference"`; every input section whose title
avoids it survives (clamped); and a successful result can be empty — a
lone `"References"` section filters to the empty list, so only the
failure fallback guarantees page coverage. -/
theorem extractSections_filters_references :
    (∀ sections : List RawSection, ∀ allPagesText : List String,
      ∀ s ∈ extractSections (.ok sections) allPagesText,
        containsSub (lowerString s.title) "reference".data = false) ∧
    (∀ sections : List RawSection, ∀ allPagesText : List String,
      ∀ s ∈ sections,
        containsSub (lowerString s.title) "reference".data = false →
        clampSection allPagesText.length s ∈
          extractSections (.ok sections) allPagesText) ∧
    extractSections (.ok [⟨"References", 1, 3⟩]) ["a", "b", "c"] = [] := by
  refine ⟨?_, ?_, by decide⟩
  · intro sections allPagesText s hs
    simp only [extractSections, List.mem_map, List.mem_filter] at hs
    obtain ⟨r, ⟨_, hr⟩, rfl⟩ := hs
    simpa [clampSection] using hr
  · intro sections allPagesText s hs hclean
    simp only [extractSections, List.mem_map]
    exact ⟨s, List.mem_filter.2 ⟨hs, by simp [hclean]⟩, rfl⟩

/-- Witness for C10 at concrete inputs. -/
theorem extractSections_filters_references_witness :
    (containsSub (lowerString (⟨"Full Paper", 1, 2⟩ : RawSection).title)
        "reference".data = false) ∧
    (clampSection (["p1", "p2"] : List String).length ⟨"Full Paper", 1, 2⟩ ∈
      extractSections (.ok [⟨"REFERENCES", 1, 2⟩, ⟨"Full Paper", 1, 2⟩])
        ["p1", "p2"]) :=
  ⟨extractSections_filters_references.1 [⟨"Full Paper", 1, 2⟩] ["p1", "p2"]
      (clampSection 2 ⟨"Full Paper", 1, 2⟩) (by decide),
   extractSections_filters_references.2.1
      [⟨"REFERENCES", 1, 2⟩, ⟨"Full Paper", 1, 2⟩] ["p1", "p2"]
      ⟨"Full Paper", 1, 2⟩ (by decide) (by decide)⟩

/-! ## Claim C2: the per-section pipeline loop of `handleFileUpload`

Step 3 of `handleFileUpload` iterates over the extracted sections; for
each it calls `processSectionText` (which either returns blocks — the
generic-failure fallback included — or throws `INVALID_KEY`), then for
each block calls `generateAudio` (which returns a buffer, or `null`, or
throws `INVALID_KEY`), pushing blocks to `allBlocksRef` and enqueuing
non-null audio. A thrown `INVALID_KEY` propagates to the `catch`, which
sets `status := ERROR` with the check-your-key message. The collaborator
results are oracle inputs below; `clock` models `ctx.currentTime` as a
function of how many items are already enqueued. -/

/-- The user-facing message set by the `catch` for `INVALID_KEY`. -/
def invalidKeyMessage : String :=
  "Your API key seems invalid. Please check your key and try again."

/-- A block as returned by `processSectionText` (no audio yet). -/
structure BlockSpec where
  id : String
  type : BlockType
  content : String
  sectionId : String
  deriving DecidableEq, Repr

/-- Result of one `generateAudio` call: the distinguished `INVALID_KEY`
throw, or a decoded buffer / `null` (any non-credential failure returns
`null`). -/
inductive AudioResult where
  | keyError
  | ok (buf : Option AudioBuffer)
  deriving DecidableEq, Repr

/-- A block together with its `generateAudio` outcome. -/
structure BlockOutcome where
  block : BlockSpec
  audio : AudioResult
  deriving DecidableEq, Repr

/-- Result of one `processSectionText` call: the distinguished
`INVALID_KEY` throw, or a block list (the single-fallback-block path for
generic failures is a value of `blocks`, since it is caught inside). -/
inductive SectionOutcome where
  | keyError
  | blocks (bs : List BlockOutcome)
  deriving DecidableEq, Repr

/-- `audioOk r` iff the synthesis call did not throw `INVALID_KEY`. -/
def audioOk : AudioResult → Bool
  | .keyError => false
  | .ok _ => true

/-- A section outcome that never reports the invalid-credential
failure. -/
def cleanSection : SectionOutcome → Bool
  | .keyError => false
  | .blocks bs => bs.all (fun b => audioOk b.audio)

/-- A section outcome that reports the invalid-credential failure at some
point (either from `processSectionText` or from a block's
`generateAudio`). -/
def hasKeyFailure : SectionOutcome → Bool
  | .keyError => true
  | .blocks bs => bs.any (fun b => !audioOk b.audio)

/-- `prev.sections.map((s, idx) => idx === i ? {...s, status} : s)`. -/
def markSection (sections : List PaperSection) (i : ℕ)
    (st : SectionStatus) : List PaperSection :=
  sections.mapIdx (fun j s => if j = i then { s with status := st } else s)

/-- The ready-update: section `i` receives its blocks and status
`'ready'`. -/
def markSectionReady (sections : List PaperSection) (i : ℕ)
    (blocks : List SpeechBlock) : List PaperSection :=
  sections.mapIdx (fun j s =>
    if j = i then { s with blocks := blocks, status := .ready } else s)

/-- The PAUSED/PLAYING-preserving status update used twice in the
loop. -/
def preservePlayback (st : AppState) (next : ProcessingState) : AppState :=
  if st.status = .PAUSED ∨ st.status = .PLAYING then st
  else { st with status := next }

/-- The full block built from a `processSectionText` block and its
`generateAudio` result (`{ ...blockData, audioBuffer: buffer }`). -/
def fullBlockOf (b : BlockSpec) (obuf : Option AudioBuffer) : SpeechBlock :=
  ⟨b.id, b.type, b.content, b.sectionId, obuf⟩

/-- One successful iteration of the inner block loop: push the full block
to `allBlocksRef`, and enqueue it when its audio is non-null
(`if (buffer) queueAudio(fullBlock)`). -/
def stepBlock (clock : ℕ → ℚ) (m : Model) (b : BlockSpec)
    (obuf : Option AudioBuffer) : Model :=
  let blk := fullBlockOf b obuf
  let m1 := { m with allBlocks := m.allBlocks ++ [blk] }
  match obuf with
  | some _ => queueAudio m1 (clock m1.audioQueue.length) blk
  | none => m1

/-- The inner block loop of one section: an `INVALID_KEY` throw aborts
with the flag set; otherwise each block is processed by `stepBlock`.
Returns the state, the `fullBlocks` accumulated (meaningful only on
normal completion) and the thrown flag. -/
def runBlocks (clock : ℕ → ℚ) :
    Model → List BlockOutcome → Model × List SpeechBlock × Bool
  | m, [] => (m, [], false)
  | m, b :: rest =>
    match b.audio with
    | .keyError => (m, [], true)
    | .ok obuf =>
      let p := runBlocks clock (stepBlock clock m b.block obuf) rest
      (p.1, fullBlockOf b.block obuf :: p.2.1, p.2.2)

/-- The state update entering section `i`: current index, section marked
processing, fractional progress. -/
def sectionEnterState (m : Model) (i total : ℕ) : Model :=
  { m with state := { m.state with
      currentSectionIndex := i,
      sections := markSection m.state.sections i .processing,
      progress := (i : ℚ) / (total : ℚ) * 100 } }

/-- The per-section loop (step 3 of `handleFileUpload`), from section
index `i`: mark section `i` processing and update progress, consult the
`processSectionText` oracle, preserve PLAYING/PAUSED while switching to
`GENERATING_VOICE`, run the block loop, then mark the section ready;
an `INVALID_KEY` throw anywhere stops the iteration. Returns the state,
the number of sections for which `processSectionText` was invoked, and
whether the run aborted. -/
def runSections (clock : ℕ → ℚ) (total : ℕ) :
    Model → ℕ → List SectionOutcome → Model × ℕ × Bool
  | m, _, [] => (m, 0, false)
  | m, i, o :: rest =>
    let m0 := sectionEnterState m i total
    match o with
    | .keyError => (m0, 1, true)
    | .blocks bs =>
      let m1 := { m0 with state := preservePlayback m0.state .GENERATING_VOICE }
      let r := runBlocks clock m1 bs
      if r.2.2 then (r.1, 1, true)
      else
        let m2 := { r.1 with state :=
          { preservePlayback r.1.state .PROCESSING_SECTION with
            sections := markSectionReady r.1.state.sections i r.2.1 } }
        let q := runSections clock total m2 (i + 1) rest
        (q.1, q.2.1 + 1, q.2.2)

/-- The section phase with its surrounding `try`/`catch`: on normal
completion set `COMPLETED` with progress 100; on an `INVALID_KEY` throw
set `ERROR` with the check-your-key message and reopen the key input. -/
def runSectionPhase (clock : ℕ → ℚ) (m : Model)
    (outs : List SectionOutcome) : Model × ℕ :=
  let r := runSections clock outs.length m 0 outs
  if r.2.2 then
    ({ r.1 with
        state :=
          { r.1.state with
            status := .ERROR,
            error := some invalidKeyMessage },
        showKeyInput := true },
     r.2.1)
  else
    ({ r.1 with
        state := { r.1.state with status := .COMPLETED, progress := 100 } },
     r.2.1)

lemma queueAudio_queue_extends (m : Model) (now : ℚ) (blk : SpeechBlock) :
    ∃ ext, (queueAudio m now blk).audioQueue = m.audioQueue ++ ext := by
  cases hb : blk.audioBuffer with
  | none => exact ⟨[], by simp [queueAudio, hb]⟩
  | some buf =>
    exact ⟨[⟨blk.id, m.playbackSpeedRef, schedStart m.nextStartTime now⟩],
      by simp [queueAudio, hb]⟩

lemma stepBlock_queue_extends (clock : ℕ → ℚ) (m : Model) (b : BlockSpec)
    (obuf : Option AudioBuffer) :
    ∃ ext, (stepBlock clock m b obuf).audioQueue = m.audioQueue ++ ext := by
  cases obuf with
  | none => exact ⟨[], by simp [stepBlock]⟩
  | some buf =>
    exact ⟨[⟨b.id, m.playbackSpeedRef,
        schedStart m.nextStartTime (clock m.audioQueue.length)⟩],
      by simp [stepBlock, fullBlockOf, queueAudio]⟩

lemma runBlocks_queue_extends (clock : ℕ → ℚ) (bs : List BlockOutcome) :
    ∀ m, ∃ ext, (runBlocks clock m bs).1.audioQueue = m.audioQueue ++ ext := by
  induction bs with
  | nil => intro m; exact ⟨[], by simp [runBlocks]⟩
  | cons b rest ih =>
    intro m
    cases hb : b.audio with
    | keyError => exact ⟨[], by simp [runBlocks, hb]⟩
    | ok obuf =>
      obtain ⟨e1, he1⟩ := stepBlock_queue_extends clock m b.block obuf
      obtain ⟨e2, he2⟩ := ih (stepBlock clock m b.block obuf)
      refine ⟨e1 ++ e2, ?_⟩
      simp only [runBlocks, hb]
      rw [he2, he1, List.append_assoc]

lemma runBlocks_clean (clock : ℕ → ℚ) (bs : List BlockOutcome) :
    ∀ m, (∀ b ∈ bs, audioOk b.audio = true) →
    (runBlocks clock m bs).2.2 = false := by
  induction bs with
  | nil => intro m _; simp [runBlocks]
  | cons b rest ih =>
    intro m hok
    have hb : audioOk b.audio = true := hok b (List.mem_cons_self _ _)
    cases hab : b.audio with
    | keyError => rw [hab] at hb; simp [audioOk] at hb
    | ok obuf =>
      simp only [runBlocks, hab]
      exact ih _ (fun x hx => hok x (List.mem_cons_of_mem _ hx))

lemma runBlocks_fail (clock : ℕ → ℚ) (bs : List BlockOutcome) :
    ∀ m, (∃ b ∈ bs, audioOk b.audio = false) →
    (runBlocks clock m bs).2.2 = true := by
  induction bs with
  | nil => intro m h; simp at h
  | cons b rest ih =>
    intro m hex
    cases hab : b.audio with
    | keyError => simp [runBlocks, hab]
    | ok obuf =>
      have hrest : ∃ x ∈ rest, audioOk x.audio = false := by
        obtain ⟨x, hx, hxf⟩ := hex
        rcases List.mem_cons.1 hx with rfl | hx'
        · rw [hab] at hxf; simp [audioOk] at hxf
        · exact ⟨x, hx', hxf⟩
      simp only [runBlocks, hab]
      exact ih _ hrest

lemma runSections_fail_head (clock : ℕ → ℚ) (total : ℕ) (m : Model)
    (i : ℕ) (o : SectionOutcome) (rest : List SectionOutcome)
    (h : hasKeyFailure o = true) :
    (runSections clock total m i (o :: rest)).2.1 = 1 ∧
    (runSections clock total m i (o :: rest)).2.2 = true ∧
    ∃ ext, (runSections clock total m i (o :: rest)).1.audioQueue =
      m.audioQueue ++ ext := by
  cases o with
  | keyError =>
    exact ⟨rfl, rfl, ⟨[], by simp [runSections, sectionEnterState]⟩⟩
  | blocks bs =>
    have hex : ∃ b ∈ bs, audioOk b.audio = false := by
      simpa [hasKeyFailure, List.any_eq_true] using h
    have hflag : ∀ mm, (runBlocks clock mm bs).2.2 = true :=
      fun mm => runBlocks_fail clock bs mm hex
    refine ⟨?_, ?_, ?_⟩
    · simp [runSections, hflag]
    · simp [runSections, hflag]
    · simp only [runSections, hflag, if_true]
      exact runBlocks_queue_extends clock bs _

lemma runSections_clean_append (clock : ℕ → ℚ) (total : ℕ)
    (xs : List SectionOutcome) :
    ∀ (ys : List SectionOutcome) (m : Model) (i : ℕ),
    (∀ o ∈ xs, cleanSection o = true) →
    (runSections clock total m i xs).2.2 = false ∧
    runSections clock total m i (xs ++ ys) =
      ((runSections clock total (runSections clock total m i xs).1
          (i + xs.length) ys).1,
       xs.length + (runSections clock total (runSections clock total m i xs).1
          (i + xs.length) ys).2.1,
       (runSections clock total (runSections clock total m i xs).1
          (i + xs.length) ys).2.2) := by
  induction xs with
  | nil =>
    intro ys m i _
    refine ⟨by simp [runSections], ?_⟩
    simp [runSections]
  | cons x xs ih =>
    intro ys m i hclean
    have hx : cleanSection x = true := hclean x (List.mem_cons_self _ _)
    have hcl : ∀ o ∈ xs, cleanSection o = true :=
      fun o ho => hclean o (List.mem_cons_of_mem _ ho)
    cases x with
    | keyError => simp [cleanSection] at hx
    | blocks bs =>
      have hok : ∀ b ∈ bs, audioOk b.audio = true := by
        simpa [cleanSection, List.all_eq_true] using hx
      have hflag : ∀ mm, (runBlocks clock mm bs).2.2 = false :=
        fun mm => runBlocks_clean clock bs mm hok
      have ihflag : ∀ mm, (runSections clock total mm (i + 1) xs).2.2 = false :=
        fun mm => (ih ys mm (i + 1) hcl).1
      have iheq : ∀ mm, runSections clock total mm (i + 1) (xs ++ ys) =
          ((runSections clock total
              (runSections clock total mm (i + 1) xs).1
              (i + 1 + xs.length) ys).1,
           xs.length + (runSections clock total
              (runSections clock total mm (i + 1) xs).1
              (i + 1 + xs.length) ys).2.1,
           (runSections clock total
              (runSections clock total mm (i + 1) xs).1
              (i + 1 + xs.length) ys).2.2) :=
        fun mm => (ih ys mm (i + 1) hcl).2
      constructor
      · simp [runSections, hflag, ihflag]
      · simp only [List.cons_append, runSections, hflag, Bool.false_eq_true,
          if_false, List.append_eq, iheq, List.length_cons]
        have hlen : i + 1 + xs.length = i + (xs.length + 1) := by omega
        simp only [hlen, Prod.mk.injEq]
        refine ⟨trivial, ?_, trivial⟩
        omega

/-- Claim C2: if section `failSec` (preceded by credential-clean sections
`pre`) reports the invalid-credential failure from `processSectionText`
or from a block's `generateAudio`, the run aborts: exactly
`pre.length + 1` sections are ever handed to `processSectionText` (none
of `post` is attempted), the phase ends `ERROR` with the check-your-key
message, and the playback queue still begins with every segment enqueued
while processing `pre` — earlier audio stays queued and playable. -/
theorem pipeline_invalid_key_aborts (clock : ℕ → ℚ) (m : Model)
    (pre post : List SectionOutcome) (failSec : SectionOutcome)
    (hpre : ∀ o ∈ pre, cleanSection o = true)
    (hfail : hasKeyFailure failSec = true) :
    (runSectionPhase clock m (pre ++ failSec :: post)).1.state.status
        = .ERROR ∧
    (runSectionPhase clock m (pre ++ failSec :: post)).1.state.error
        = some invalidKeyMessage ∧
    (runSectionPhase clock m (pre ++ failSec :: post)).2 = pre.length + 1 ∧
    ∃ extra, (runSectionPhase clock m (pre ++ failSec :: post)).1.audioQueue =
      (runSections clock (pre ++ failSec :: post).length m 0 pre).1.audioQueue
        ++ extra := by
  obtain ⟨-, happ⟩ := runSections_clean_append clock
    (pre ++ failSec :: post).length pre (failSec :: post) m 0 hpre
  obtain ⟨hcnt, hflag, ext, hext⟩ := runSections_fail_head clock
    (pre ++ failSec :: post).length
    (runSections clock (pre ++ failSec :: post).length m 0 pre).1
    (0 + pre.length) failSec post hfail
  simp only [Nat.zero_add] at happ hcnt hflag hext
  refine ⟨?_, ?_, ?_, ⟨ext, ?_⟩⟩
  · simp only [runSectionPhase, happ, hflag, eq_self_iff_true, if_true]
  · simp only [runSectionPhase, happ, hflag, eq_self_iff_true, if_true]
  · simp only [runSectionPhase, happ, hflag, eq_self_iff_true, if_true, hcnt]
  · simp only [runSectionPhase, happ, hflag, eq_self_iff_true, if_true]
    exact hext

/-- Concrete pipeline run for the C2 witness: one clean section with one
audible block, then a section whose synthesis throws `INVALID_KEY`, then
a section that is never attempted. -/
def demoPre : List SectionOutcome :=
  [.blocks [⟨⟨"s0-b0", .TEXT, "hello", "s0"⟩, .ok (some ⟨1, 2, 1, [[0, 0]]⟩)⟩]]

/-- The failing section of the C2 witness. -/
def demoFail : SectionOutcome :=
  .blocks [⟨⟨"s1-b0", .TEXT, "world", "s1"⟩, .keyError⟩]

/-- Witness for C2 at the concrete run. -/
theorem pipeline_invalid_key_aborts_witness :
    (runSectionPhase (fun _ => 0) (initialModel "" "")
        (demoPre ++ demoFail :: [.blocks []])).1.state.status = .ERROR ∧
    (runSectionPhase (fun _ => 0) (initialModel "" "")
        (demoPre ++ demoFail :: [.blocks []])).2 = demoPre.length + 1 ∧
    ∃ extra, (runSectionPhase (fun _ => 0) (initialModel "" "")
        (demoPre ++ demoFail :: [.blocks []])).1.audioQueue =
      (runSections (fun _ => 0) (demoPre ++ demoFail :: [.blocks []]).length
          (initialModel "" "") 0 demoPre).1.audioQueue ++ extra := by
  have h := pipeline_invalid_key_aborts (fun _ => 0) (initialModel "" "")
    demoPre [.blocks []] demoFail (by decide) (by decide)
  exact ⟨h.1, h.2.2.1, h.2.2.2⟩

/-! ## Claim C5: `chunkText` and `concatenateAudioBuffers`

`chunkText(text, maxLength = 1900)` splits text for the TTS provider;
`generateAudio` synthesises each chunk and concatenates the decoded
buffers. Strings are modelled through their character lists; the JS
`-1` sentinel of `lastIndexOf` becomes `Option ℕ`. -/

/-- The whitespace class used by `trim` and `\s` (the ASCII members). -/
def isWsChar (c : Char) : Bool :=
  c == ' ' || c == '\t' || c == '\n' || c == '\r' || c == '\x0b' || c == '\x0c'

/-- JS `String.prototype.trim`: drop whitespace from the front, then from
the back. -/
def trimL (l : List Char) : List Char :=
  List.rdropWhile isWsChar (List.dropWhile isWsChar l)

/-- Single left-to-right scan behind `lastIndexOf`: keep the last
position `≤ fromIdx` where `pat` occurs, starting at position `i` with
current best hit `best`. -/
def lastIndexOfFromAux (pat : List Char) :
    List Char → ℕ → ℕ → Option ℕ → Option ℕ
  | [], _, _, best => best
  | c :: tl, i, fromIdx, best =>
    if fromIdx < i then best
    else lastIndexOfFromAux pat tl (i + 1) fromIdx
      (if pat.isPrefixOf (c :: tl) then some i else best)

/-- JS `cs.lastIndexOf(pat, fromIdx)`: the greatest start index
`≤ fromIdx` of an occurrence of `pat` in `cs`; `none` plays `-1`. -/
def lastIndexOfFrom (cs pat : List Char) (fromIdx : ℕ) : Option ℕ :=
  lastIndexOfFromAux pat cs 0 fromIdx none

/-- The break-point selection of `chunkText`: `lastIndexOf('. ',
maxLength)`, replaced by `lastIndexOf(' ', maxLength)` when not found or
below half the limit (JS compares `breakPoint < maxLength / 2` in exact
arithmetic, i.e. `2 * b < maxLength`), falling back to `maxLength` when
no space is found either. -/
def breakPointOf (cs : List Char) (maxLength : ℕ) : ℕ :=
  let bp0 := lastIndexOfFrom cs ['.', ' '] maxLength
  let bp1 :=
    match bp0 with
    | none => lastIndexOfFrom cs [' '] maxLength
    | some b =>
      if 2 * b < maxLength then lastIndexOfFrom cs [' '] maxLength else some b
  bp1.getD maxLength

/-- The `while` loop of `chunkText`, with a fuel argument: every
iteration removes at least `breakPoint + 1 ≥ 1` characters from
`remaining`, so fuel `remaining.length + 1` never runs out. Each step
pushes `remaining.substring(0, breakPoint + 1).trim()` and continues on
`remaining.substring(breakPoint + 1).trim()`. -/
def chunkGoF (maxLength : ℕ) : ℕ → List Char → List (List Char)
  | 0, _ => []
  | fuel + 1, cs =>
    if cs.length = 0 then []
    else if cs.length ≤ maxLength then [cs]
    else
      let bp := breakPointOf cs maxLength
      trimL (cs.take (bp + 1)) ::
        chunkGoF maxLength fuel (trimL (cs.drop (bp + 1)))

/-- `chunkText(text, maxLength = 1900)` from `geminiService.ts`. -/
def chunkText (text : String) (maxLength : ℕ := 1900) : List String :=
  (chunkGoF maxLength (text.data.length + 1) text.data).map
    (fun l => String.mk l)

/-- `concatenateAudioBuffers` from `geminiService.ts`: the result length
is `buffers.reduce((sum, buf) => sum + buf.length, 0)`; channel count and
sample rate come from `buffers[0]`; the copy loop writes buffer `k`'s
channel data at the running offset of the preceding lengths, which for
decoded buffers (channel data length = `length`) is exactly per-channel
concatenation, written so here. The `[]` case is unreachable in the
source (`generateAudio` returns `null` before calling it with an empty
array). -/
def concatenateAudioBuffers (buffers : List AudioBuffer) : AudioBuffer :=
  match buffers with
  | [] => ⟨0, 0, 0, []⟩
  | b0 :: _ =>
    { numberOfChannels := b0.numberOfChannels
      length := buffers.foldl (fun sum buf => sum + buf.length) 0
      sampleRate := b0.sampleRate
      data := (List.range b0.numberOfChannels).map
        (fun ch => ((buffers.map (fun buf => buf.data.getD ch [])).flatten)) }

lemma lastIndexOfFromAux_spec (pat : List Char) :
    ∀ (l : List Char) (i fromIdx : ℕ) (best : Option ℕ) (j : ℕ),
    lastIndexOfFromAux pat l i fromIdx best = some j →
    best = some j ∨
      (i ≤ j ∧ j ≤ fromIdx ∧ pat.isPrefixOf (l.drop (j - i)) = true) := by
  intro l
  induction l with
  | nil => intro i f best j h; exact Or.inl h
  | cons c tl ih =>
    intro i f best j h
    simp only [lastIndexOfFromAux] at h
    by_cases hf : f < i
    · rw [if_pos hf] at h; exact Or.inl h
    · rw [if_neg hf] at h
      rcases ih (i + 1) f _ j h with hbest | ⟨hij, hjf, hpre⟩
      · by_cases hp : pat.isPrefixOf (c :: tl)
        · rw [if_pos hp] at hbest
          obtain rfl : i = j := Option.some.inj hbest
          exact Or.inr ⟨le_refl i, by omega, by simpa using hp⟩
        · rw [if_neg hp] at hbest; exact Or.inl hbest
      · refine Or.inr ⟨by omega, hjf, ?_⟩
        have hdrop : (c :: tl).drop (j - i) = tl.drop (j - (i + 1)) := by
          have hj : j - i = (j - (i + 1)) + 1 := by omega
          rw [hj, List.drop_succ_cons]
        rw [hdrop]; exact hpre

lemma lastIndexOfFromAux_none (pat : List Char) (hpat : pat ≠ []) :
    ∀ (l : List Char) (i fromIdx : ℕ) (best : Option ℕ),
    lastIndexOfFromAux pat l i fromIdx best = none →
    ∀ k, i + k ≤ fromIdx → pat.isPrefixOf (l.drop k) = false := by
  intro l
  induction l with
  | nil =>
    intro i f best h k hk
    rw [List.drop_nil]
    by_contra hc
    rw [Bool.not_eq_false, List.isPrefixOf_iff_prefix, List.prefix_nil] at hc
    exact hpat hc
  | cons c tl ih =>
    intro i f best h k hk
    simp only [lastIndexOfFromAux] at h
    rw [if_neg (by omega : ¬ f < i)] at h
    have hbest : (if pat.isPrefixOf (c :: tl) then some i else best) = none ∧
        ∀ k, (i + 1) + k ≤ f → pat.isPrefixOf (tl.drop k) = false := by
      constructor
      · by_contra hc
        -- a `some` best can never turn into a `none` result
        revert h
        have : ∀ (l' : List Char) (i' f' : ℕ) (b : Option ℕ), b ≠ none →
            lastIndexOfFromAux pat l' i' f' b ≠ none := by
          intro l'
          induction l' with
          | nil => intro i' f' b hb; simpa [lastIndexOfFromAux] using hb
          | cons c' tl' ih' =>
            intro i' f' b hb
            simp only [lastIndexOfFromAux]
            by_cases hfi : f' < i'
            · rw [if_pos hfi]; exact hb
            · rw [if_neg hfi]
              apply ih'
              by_cases hp : pat.isPrefixOf (c' :: tl')
              · simp [hp]
              · simpa [hp] using hb
        exact this tl (i + 1) f _ hc
      · exact ih (i + 1) f _ h
    cases k with
    | zero =>
      by_contra hc
      rw [Nat.add_zero] at hk
      rw [List.drop_zero] at hc
      rw [Bool.not_eq_false] at hc
      rw [if_pos hc] at hbest
      exact Option.some_ne_none i hbest.1
    | succ k' =>
      rw [List.drop_succ_cons]
      exact hbest.2 k' (by omega)

lemma lastIndexOfFrom_spec (cs pat : List Char) (f j : ℕ)
    (h : lastIndexOfFrom cs pat f = some j) :
    j ≤ f ∧ pat.isPrefixOf (cs.drop j) = true := by
  rcases lastIndexOfFromAux_spec pat cs 0 f none j h with h0 | ⟨_, hjf, hpre⟩
  · exact absurd h0 (by simp)
  · exact ⟨hjf, by simpa using hpre⟩

lemma lastIndexOfFrom_none (cs pat : List Char) (f : ℕ) (hpat : pat ≠ [])
    (h : lastIndexOfFrom cs pat f = none) :
    ∀ k, k ≤ f → pat.isPrefixOf (cs.drop k) = false := by
  intro k hk
  exact lastIndexOfFromAux_none pat hpat cs 0 f none h k (by omega)

lemma breakPointOf_le (cs : List Char) (maxLength : ℕ) :
    breakPointOf cs maxLength ≤ maxLength := by
  unfold breakPointOf
  cases h0 : lastIndexOfFrom cs ['.', ' '] maxLength with
  | none =>
    cases h1 : lastIndexOfFrom cs [' '] maxLength with
    | none => simp
    | some b => simpa using (lastIndexOfFrom_spec _ _ _ _ h1).1
  | some b =>
    by_cases hb : 2 * b < maxLength
    · cases h1 : lastIndexOfFrom cs [' '] maxLength with
      | none => simp [hb, h1]
      | some b' => simpa [hb, h1] using (lastIndexOfFrom_spec _ _ _ _ h1).1
    · simpa [hb] using (lastIndexOfFrom_spec _ _ _ _ h0).1

lemma trimL_length_le (l : List Char) : (trimL l).length ≤ l.length :=
  le_trans (List.rdropWhile_prefix _ _).length_le
    (List.dropWhile_suffix _).length_le

lemma dropWhile_trimL (l : List Char) :
    List.dropWhile isWsChar (trimL l) = trimL l := by
  rw [List.dropWhile_eq_self_iff]
  intro hl
  have hpre : trimL l <+: List.dropWhile isWsChar l :=
    List.rdropWhile_prefix _ _
  have hlen : 0 < (List.dropWhile isWsChar l).length :=
    lt_of_lt_of_le hl hpre.length_le
  have hg : (trimL l).get ⟨0, hl⟩ =
      (List.dropWhile isWsChar l).get ⟨0, hlen⟩ := by
    simpa [List.get_eq_getElem] using hpre.getElem hl
  rw [hg]
  exact List.dropWhile_get_zero_not isWsChar l hlen

lemma trimL_idem (l : List Char) : trimL (trimL l) = trimL l := by
  show List.rdropWhile isWsChar (List.dropWhile isWsChar (trimL l)) = trimL l
  rw [dropWhile_trimL]
  show List.rdropWhile isWsChar
      (List.rdropWhile isWsChar (List.dropWhile isWsChar l)) = _
  rw [List.rdropWhile_idempotent]
  rfl

lemma chunkGoF_length_le (maxLength : ℕ) :
    ∀ (fuel : ℕ) (cs : List Char), ∀ c ∈ chunkGoF maxLength fuel cs,
      c.length ≤ maxLength + 1 := by
  intro fuel
  induction fuel with
  | zero => intro cs c hc; simp [chunkGoF] at hc
  | succ fuel ih =>
    intro cs c hc
    by_cases h0 : cs.length = 0
    · simp [chunkGoF, h0] at hc
    · by_cases h1 : cs.length ≤ maxLength
      · simp only [chunkGoF, if_neg h0, if_pos h1, List.mem_singleton] at hc
        subst hc; omega
      · simp only [chunkGoF, if_neg h0, if_neg h1, List.mem_cons] at hc
        rcases hc with rfl | hc
        · have hle := breakPointOf_le cs maxLength
          have h2 := trimL_length_le
            (cs.take (breakPointOf cs maxLength + 1))
          have h3 : (cs.take (breakPointOf cs maxLength + 1)).length ≤
              breakPointOf cs maxLength + 1 := by
            simp [List.length_take]
          omega
        · exact ih _ c hc

lemma breakPoint_boundary (cs : List Char) (maxLength : ℕ)
    (hsp : ' ' ∈ cs.take (maxLength + 1)) :
    ['.', ' '].isPrefixOf (cs.drop (breakPointOf cs maxLength)) = true ∨
    [' '].isPrefixOf (cs.drop (breakPointOf cs maxLength)) = true := by
  obtain ⟨j, hj, hcj⟩ := List.getElem_of_mem hsp
  have hj' : j ≤ maxLength := by
    have := hj; simp [List.length_take] at this; omega
  have hjlen : j < cs.length := by
    have := hj; simp [List.length_take] at this; omega
  have hcsj : cs[j] = ' ' := by rw [← hcj]; exact (List.getElem_take cs).symm
  have hpre : [' '].isPrefixOf (cs.drop j) = true := by
    rw [List.isPrefixOf_iff_prefix, List.drop_eq_getElem_cons hjlen, hcsj]
    exact ⟨cs.drop (j + 1), rfl⟩
  have hnn : lastIndexOfFrom cs [' '] maxLength ≠ none := by
    intro hn
    have := lastIndexOfFrom_none cs [' '] maxLength (by simp) hn j hj'
    rw [this] at hpre
    exact Bool.false_ne_true hpre
  obtain ⟨b, hb⟩ := Option.ne_none_iff_exists'.mp hnn
  unfold breakPointOf
  cases h0 : lastIndexOfFrom cs ['.', ' '] maxLength with
  | none =>
    right
    simp only [h0, hb, Option.getD_some]
    exact (lastIndexOfFrom_spec _ _ _ _ hb).2
  | some b0 =>
    by_cases h2 : 2 * b0 < maxLength
    · right
      simp only [h0, if_pos h2, hb, Option.getD_some]
      exact (lastIndexOfFrom_spec _ _ _ _ hb).2
    · left
      simp only [h0, if_neg h2, Option.getD_some]
      exact (lastIndexOfFrom_spec _ _ _ _ h0).2

lemma foldl_add_length (bufs : List AudioBuffer) :
    ∀ a : ℕ, bufs.foldl (fun sum buf => sum + buf.length) a =
      a + (bufs.map (fun b => b.length)).sum := by
  induction bufs with
  | nil => intro a; simp
  | cons b rest ih => intro a; simp [List.foldl_cons, ih]; omega

lemma getD_map_range (n i : ℕ) (f : ℕ → List ℚ) (h : i < n) :
    ((List.range n).map f).getD i [] = f i := by
  rw [List.getD_eq_getElem?_getD, List.getElem?_map, List.getElem?_range h]
  rfl

/-- The 1901-character spaceless input of the C5 counterexample. -/
def longAText : String := String.mk (List.replicate 1901 'a')

lemma not_prefix_of_head_notin (c : Char) (p l : List Char) (hc : c ∉ l) :
    (c :: p).isPrefixOf l = false := by
  by_contra h
  rw [Bool.not_eq_false, List.isPrefixOf_iff_prefix] at h
  exact hc (h.subset (List.mem_cons_self c p))

lemma lastIndexOfFromAux_eq_best (pat : List Char) :
    ∀ (l : List Char) (i f : ℕ) (best : Option ℕ),
    (∀ suff : List Char, suff <:+ l → pat.isPrefixOf suff = false) →
    lastIndexOfFromAux pat l i f best = best := by
  intro l
  induction l with
  | nil => intro i f best _; rfl
  | cons c tl ih =>
    intro i f best h
    simp only [lastIndexOfFromAux]
    by_cases hf : f < i
    · rw [if_pos hf]
    · rw [if_neg hf, h (c :: tl) (List.suffix_refl _)]
      simp only [Bool.false_eq_true, if_false]
      exact ih _ _ _ (fun s hs => h s (hs.trans (List.suffix_cons c tl)))

lemma lastIndexOfFrom_replicate_a (pat0 : Char) (p : List Char) (n f : ℕ)
    (h : ¬ pat0 = 'a') :
    lastIndexOfFrom (List.replicate n 'a') (pat0 :: p) f = none := by
  unfold lastIndexOfFrom
  apply lastIndexOfFromAux_eq_best
  intro suff hsuff
  apply not_prefix_of_head_notin
  intro hmem
  exact h (List.eq_of_mem_replicate (hsuff.subset hmem))

lemma breakPointOf_replicate (n f : ℕ) :
    breakPointOf (List.replicate n 'a') f = f := by
  unfold breakPointOf
  rw [lastIndexOfFrom_replicate_a '.' [' '] n f (by decide),
      lastIndexOfFrom_replicate_a ' ' [] n f (by decide)]
  rfl

lemma trimL_replicate_a (n : ℕ) :
    trimL (List.replicate n 'a') = List.replicate n 'a' := by
  unfold trimL
  have h1 : List.dropWhile isWsChar (List.replicate n 'a') =
      List.replicate n 'a' := by
    rw [List.dropWhile_eq_self_iff]
    intro hl
    have hg : (List.replicate n 'a').get ⟨0, hl⟩ = 'a' :=
      List.eq_of_mem_replicate (List.get_mem _ 0 hl)
    rw [hg]; decide
  have h2 : List.rdropWhile isWsChar (List.replicate n 'a') =
      List.replicate n 'a' := by
    rw [List.rdropWhile_eq_self_iff]
    intro hl
    have hg : (List.replicate n 'a').getLast hl = 'a' :=
      List.eq_of_mem_replicate (List.getLast_mem hl)
    rw [hg]; decide
  rw [h1, h2]

lemma chunkGoF_nil (m fuel : ℕ) : chunkGoF m fuel [] = [] := by
  cases fuel with
  | zero => rfl
  | succ f => simp [chunkGoF]

lemma chunkGoF_succ (m fuel : ℕ) (cs : List Char) :
    chunkGoF m (fuel + 1) cs =
      if cs.length = 0 then []
      else if cs.length ≤ m then [cs]
      else
        trimL (cs.take (breakPointOf cs m + 1)) ::
          chunkGoF m fuel (trimL (cs.drop (breakPointOf cs m + 1))) := rfl

lemma chunkGoF_longA :
    chunkGoF 1900 1902 (List.replicate 1901 'a') =
      [List.replicate 1901 'a'] := by
  rw [show (1902 : ℕ) = 1901 + 1 from rfl, chunkGoF_succ]
  rw [List.length_replicate]
  rw [if_neg (by norm_num), if_neg (by norm_num)]
  rw [breakPointOf_replicate]
  rw [List.take_replicate, List.drop_replicate]
  rw [show min (1900 + 1) 1901 = 1901 from by norm_num]
  rw [show (1901 - (1900 + 1) : ℕ) = 0 from by norm_num]
  rw [trimL_replicate_a, List.replicate_zero]
  rw [show trimL [] = [] from rfl, chunkGoF_nil]

lemma chunkText_longA : chunkText longAText 1900 = [longAText] := by
  show (chunkGoF 1900 ((List.replicate 1901 'a').length + 1)
      (List.replicate 1901 'a')).map (fun l => String.mk l) = _
  rw [List.length_replicate, chunkGoF_longA]
  rfl

/-- Counterexample to claim C5: on 1901 repetitions of `'a'` (longer than
the 1900-character provider limit, with no sentence or word boundary),
`chunkText` produces the single chunk `substring(0, 1900 + 1)` of length
1901, exceeding the limit. -/
theorem chunkText_exceeds_limit :
    ¬ (∀ c ∈ chunkText longAText 1900, c.length ≤ 1900) := by
  intro h
  have hmem : longAText ∈ chunkText longAText 1900 := by
    rw [chunkText_longA]; exact List.mem_singleton_self _
  have hle := h longAText hmem
  have hlen : longAText.length = 1901 := by
    rw [show longAText.length = (List.replicate 1901 'a').length from rfl,
      List.length_replicate]
  omega

/-- Claim C5 (amended): every chunk produced by `chunkText` has length at
most `maxLength + 1` (the code keeps the character at the break index, so
a chunk can exceed the stated limit by exactly one); whenever a space
occurs among the first `maxLength + 1` characters the break index falls
on a sentence boundary `". "` or on a space; and concatenation is
sample-for-sample: the result's sample length is the sum of the segment
lengths and each channel is the concatenation of the segments'
channels. -/
theorem chunkText_concat_amended :
    (∀ (text : String) (maxLength : ℕ), ∀ c ∈ chunkText text maxLength,
        c.length ≤ maxLength + 1) ∧
    (∀ (text : String) (maxLength : ℕ), ' ' ∈ text.data.take (maxLength + 1) →
        ['.', ' '].isPrefixOf
            (text.data.drop (breakPointOf text.data maxLength)) = true ∨
        [' '].isPrefixOf
            (text.data.drop (breakPointOf text.data maxLength)) = true) ∧
    (∀ (b0 : AudioBuffer) (rest : List AudioBuffer),
        (concatenateAudioBuffers (b0 :: rest)).length =
          ((b0 :: rest).map (fun b => b.length)).sum ∧
        ∀ ch, ch < b0.numberOfChannels →
          (concatenateAudioBuffers (b0 :: rest)).data.getD ch [] =
            ((b0 :: rest).map (fun buf => buf.data.getD ch [])).flatten) := by
  refine ⟨?_, ?_, ?_⟩
  · intro text maxLength c hc
    simp only [chunkText, List.mem_map] at hc
    obtain ⟨l, hl, rfl⟩ := hc
    exact chunkGoF_length_le maxLength _ text.data l hl
  · intro text maxLength hsp
    exact breakPoint_boundary text.data maxLength hsp
  · intro b0 rest
    constructor
    · show (b0 :: rest).foldl (fun sum buf => sum + buf.length) 0 = _
      rw [foldl_add_length, Nat.zero_add]
    · intro ch hch
      show ((List.range b0.numberOfChannels).map _).getD ch [] = _
      rw [getD_map_range _ _ _ hch]

/-- Witness for C5 (amended) at concrete inputs: `chunkText "ab c" 2 =
["ab", "c"]`, the break falls on the space, and a two-buffer
concatenation. -/
theorem chunkText_concat_amended_witness :
    ("ab" ∈ chunkText "ab c" 2 ∧ "ab".length ≤ 2 + 1) ∧
    (' ' ∈ "ab c".data.take 3 ∧
      (['.', ' '].isPrefixOf ("ab c".data.drop (breakPointOf "ab c".data 2))
          = true ∨
       [' '].isPrefixOf ("ab c".data.drop (breakPointOf "ab c".data 2))
          = true)) ∧
    ((0 : ℕ) < 1 ∧
      (concatenateAudioBuffers [⟨1, 2, 1, [[0, 0]]⟩,
          ⟨1, 1, 1, [[7]]⟩]).data.getD 0 [] =
        (([⟨1, 2, 1, [[0, 0]]⟩, ⟨1, 1, 1, [[7]]⟩] :
            List AudioBuffer).map (fun buf => buf.data.getD 0 [])).flatten) := by
  refine ⟨⟨by decide, ?_⟩, ⟨by decide, ?_⟩, ⟨by decide, ?_⟩⟩
  · exact chunkText_concat_amended.1 "ab c" 2 "ab" (by decide)
  · exact chunkText_concat_amended.2.1 "ab c" 2 (by decide)
  · exact (chunkText_concat_amended.2.2 ⟨1, 2, 1, [[0, 0]]⟩
      [⟨1, 1, 1, [[7]]⟩]).2 0 (by decide)

/-! ## Claim C4: the TTS text normalizer (`cleanTextForTTS`)

`cleanTextForTTS` chains twenty `replace(/…/g, '')` deletion passes, then
collapses whitespace runs (`replace(/\s+/g, ' ')`) and trims. Each
deletion pass is embedded as a hand-written matcher for its regex
(returning the match length at the current position, or `none`) driven by
a generic global-replace scanner. JS semantics respected throughout: a
global pass scans the ORIGINAL string left to right (deletions never
create new matches within the same pass), quantifiers are greedy, `\b`
and the `m`-flag `^` read the character preceding the current position in
the original string, and lookaheads consume nothing. -/

/-- JS `\w`: `[A-Za-z0-9_]`. -/
def isWordChar (c : Char) : Bool :=
  c.isAlphanum || c == '_'

/-- The class `[\w.-]` of the email regex. -/
def isEmailChar (c : Char) : Bool :=
  isWordChar c || c == '.' || c == '-'

/-- The class `[\d./\w-]` of the DOI regex. -/
def isDoiChar (c : Char) : Bool :=
  c.isDigit || c == '.' || c == '/' || isWordChar c || c == '-'

/-- `[A-Z]`. -/
def isUpperAZ (c : Char) : Bool :=
  'A' ≤ c && c ≤ 'Z'

/-- `[a-z]`. -/
def isLowerAZ (c : Char) : Bool :=
  'a' ≤ c && c ≤ 'z'

/-- Maximal run of characters satisfying `p`: its length and the rest. -/
def spanCount (p : Char → Bool) : List Char → ℕ × List Char
  | [] => (0, [])
  | c :: cs =>
    if p c then
      let r := spanCount p cs
      (r.1 + 1, r.2)
    else (0, c :: cs)

/-- Consume one expected character. -/
def expectChar (c : Char) : List Char → Option (List Char)
  | x :: xs => if x == c then some xs else none
  | [] => none

/-- Consume a literal, case-insensitively when `ci` (for `/i` flags). -/
def expectLit (ci : Bool) : List Char → List Char → Option (List Char)
  | [], rest => some rest
  | _ :: _, [] => none
  | p :: ps, x :: xs =>
    if (if ci then x.toLower == p.toLower else x == p) then expectLit ci ps xs
    else none

/-- Consume exactly `n` digits (`\d{n}`). -/
def expectDigits : ℕ → List Char → Option (List Char)
  | 0, l => some l
  | _ + 1, [] => none
  | n + 1, c :: cs => if c.isDigit then expectDigits n cs else none

/-- The number of characters a matcher consumed, from the rest it
returned. -/
def matchLen (l rest : List Char) : ℕ :=
  l.length - rest.length

/-- `\b` before a word character: the previous original character is
absent or not a word character (every `\b` use below precedes a word
character). -/
def wordBoundaryBefore (prev : Option Char) : Bool :=
  match prev with
  | none => true
  | some c => !isWordChar c

/-- The `m`-flag `^`: start of input or right after a line
terminator. -/
def lineStart (prev : Option Char) : Bool :=
  match prev with
  | none => true
  | some c => c == '\n' || c == '\r'

/-- `/[\w.-]+@[\w.-]+\.\w+/g`. The name run is greedy (a shorter run
would still face a class character, not `@`); the host backtracks to the
largest split `host · '.' · \w+` inside its greedy run. -/
def matchEmail (_ : Option Char) (l : List Char) : Option ℕ :=
  let s1 := spanCount isEmailChar l
  if s1.1 = 0 then none
  else
    match s1.2 with
    | '@' :: r2 =>
      let s2 := spanCount isEmailChar r2
      let run := r2.take s2.1
      let cands := (List.range s2.1).filter (fun h =>
        decide (0 < h) && (run.getD h ' ' == '.') &&
          isWordChar (run.getD (h + 1) ' '))
      match cands.getLast? with
      | none => none
      | some h =>
        let w := spanCount isWordChar (run.drop (h + 1))
        some (s1.1 + 1 + h + 1 + w.1)
    | _ => none

/-- `/https?:\/\/[^\s]+/g`. -/
def matchHttpUrl (_ : Option Char) (l : List Char) : Option ℕ := do
  let r1 ← expectLit false "http".data l
  let r2 := match expectChar 's' r1 with
    | some r => r
    | none => r1
  let r3 ← expectLit false "://".data r2
  let s := spanCount (fun c => !isWsChar c) r3
  if s.1 = 0 then none else some (matchLen l s.2)

/-- `/www\.[^\s]+/g`. -/
def matchWwwUrl (_ : Option Char) (l : List Char) : Option ℕ := do
  let r1 ← expectLit false "www.".data l
  let s := spanCount (fun c => !isWsChar c) r1
  if s.1 = 0 then none else some (matchLen l s.2)

/-- `/doi:\s*[\d./\w-]+/gi`. -/
def matchDoi (_ : Option Char) (l : List Char) : Option ℕ := do
  let r1 ← expectLit true "doi:".data l
  let r2 := (spanCount isWsChar r1).2
  let s := spanCount isDoiChar r2
  if s.1 = 0 then none else some (matchLen l s.2)

/-- `/\b10\.\d{4,}\/[^\s]+/g`. -/
def matchBareDoi (prev : Option Char) (l : List Char) : Option ℕ :=
  if wordBoundaryBefore prev then do
    let r1 ← expectLit false "10.".data l
    let s := spanCount Char.isDigit r1
    if s.1 < 4 then none
    else do
      let r2 ← expectChar '/' s.2
      let t := spanCount (fun c => !isWsChar c) r2
      if t.1 = 0 then none else some (matchLen l t.2)
  else none

/-- `/arXiv:\s*[\d.]+/gi`. -/
def matchArxiv (_ : Option Char) (l : List Char) : Option ℕ := do
  let r1 ← expectLit true "arxiv:".data l
  let r2 := (spanCount isWsChar r1).2
  let s := spanCount (fun c => c.isDigit || c == '.') r2
  if s.1 = 0 then none else some (matchLen l s.2)

/-- The `(?:[-,]\s*\d+)*\]` tail of the citation regex: greedily take
separator groups, then require `]`. A separator whose digits fail aborts
the whole match (shorter group iterations leave the separator facing
`]`, which also fails, as in JS backtracking). -/
def citeTailF : ℕ → List Char → Option (List Char)
  | 0, _ => none
  | fuel + 1, l =>
    match l with
    | ']' :: r => some r
    | c :: r =>
      if c == '-' || c == ',' then
        let r2 := (spanCount isWsChar r).2
        let d := spanCount Char.isDigit r2
        if d.1 = 0 then none else citeTailF fuel d.2
      else none
    | [] => none

/-- `/\[\d+(?:[-,]\s*\d+)*\]/g`. -/
def matchBracketCitation (_ : Option Char) (l : List Char) : Option ℕ := do
  let r1 ← expectChar '[' l
  let d := spanCount Char.isDigit r1
  if d.1 = 0 then none
  else do
    let r2 ← citeTailF l.length d.2
    some (matchLen l r2)

/-- The optional `(?:\s+et\s+al\.?)?` group: consumed greedily when it
matches, skipped otherwise (when the group matches but the continuation
fails, the skipped path faces whitespace before `\d{4}`-after-`,?\s*`,
i.e. letters, and fails too — greediness loses nothing). -/
def matchEtAlOpt (l : List Char) : List Char :=
  match (do
    let s1 := spanCount isWsChar l
    if s1.1 = 0 then none
    else do
      let r1 ← expectLit false "et".data s1.2
      let s2 := spanCount isWsChar r1
      if s2.1 = 0 then none
      else do
        let r2 ← expectLit false "al".data s2.2
        let r3 := match expectChar '.' r2 with
          | some r => r
          | none => r2
        some r3 : Option (List Char)) with
  | some r => r
  | none => l

/-- `/\([A-Z][a-z]+(?:\s+et\s+al\.?)?,?\s*\d{4}\)/g`. -/
def matchAuthorYear (_ : Option Char) (l : List Char) : Option ℕ := do
  let r1 ← expectChar '(' l
  match r1 with
  | c :: r2 =>
    if isUpperAZ c then
      let low := spanCount isLowerAZ r2
      if low.1 = 0 then none
      else do
        let r3 := matchEtAlOpt low.2
        let r4 := match expectChar ',' r3 with
          | some r => r
          | none => r3
        let r5 := (spanCount isWsChar r4).2
        let r6 ← expectDigits 4 r5
        let r7 ← expectChar ')' r6
        some (matchLen l r7)
    else none
  | [] => none

/-- `/\([A-Z][a-z]+\s+and\s+[A-Z][a-z]+,?\s*\d{4}\)/g`. -/
def matchAuthorAndAuthor (_ : Option Char) (l : List Char) : Option ℕ := do
  let r1 ← expectChar '(' l
  match r1 with
  | c :: r2 =>
    if isUpperAZ c then
      let low := spanCount isLowerAZ r2
      if low.1 = 0 then none
      else
        let s1 := spanCount isWsChar low.2
        if s1.1 = 0 then none
        else do
          let r3 ← expectLit false "and".data s1.2
          let s2 := spanCount isWsChar r3
          if s2.1 = 0 then none
          else
            match s2.2 with
            | c2 :: r4 =>
              if isUpperAZ c2 then
                let low2 := spanCount isLowerAZ r4
                if low2.1 = 0 then none
                else do
                  let r5 := match expectChar ',' low2.2 with
                    | some r => r
                    | none => low2.2
                  let r6 := (spanCount isWsChar r5).2
                  let r7 ← expectDigits 4 r6
                  let r8 ← expectChar ')' r7
                  some (matchLen l r8)
              else none
            | [] => none
    else none
  | [] => none

/-- The greedy `(\d{3}\s+)+` of the line-number regex: as many
`three digits + whitespace` groups as possible (at least one). -/
def lineNumGroupsF : ℕ → List Char → Option (List Char)
  | 0, _ => none
  | fuel + 1, l => do
    let r1 ← expectDigits 3 l
    let s := spanCount isWsChar r1
    if s.1 = 0 then none
    else
      match lineNumGroupsF fuel s.2 with
      | some r => some r
      | none => some s.2

/-- `/^(\d{3}\s+)+/gm`. -/
def matchLineNumberRun (prev : Option Char) (l : List Char) : Option ℕ :=
  if lineStart prev then
    match lineNumGroupsF (l.length + 1) l with
    | some r => some (matchLen l r)
    | none => none
  else none

/-- `/\b\d{3}\s+(?=\d{3}\b)/g` — the lookahead consumes nothing. -/
def matchMidLineNumber (prev : Option Char) (l : List Char) : Option ℕ :=
  if wordBoundaryBefore prev then do
    let r1 ← expectDigits 3 l
    let s := spanCount isWsChar r1
    if s.1 = 0 then none
    else
      match expectDigits 3 s.2 with
      | none => none
      | some r2 =>
        let bOk := match r2 with
          | [] => true
          | c :: _ => !isWordChar c
        if bOk then some (matchLen l s.2) else none
  else none

/-- `/^\s*\d{1,3}\s+(?=[A-Z])/gm`. More than three digits fails for
every backtrack (the fourth digit then faces `\s+`). -/
def matchLeadingLineNumber (prev : Option Char) (l : List Char) : Option ℕ :=
  if lineStart prev then
    let s0 := (spanCount isWsChar l).2
    let d := spanCount Char.isDigit s0
    if d.1 = 0 || 3 < d.1 then none
    else
      let s1 := spanCount isWsChar d.2
      if s1.1 = 0 then none
      else
        match s1.2 with
        | c :: _ => if isUpperAZ c then some (matchLen l s1.2) else none
        | [] => none
  else none

/-- `/\bPage\s+\d+\b/gi`. -/
def matchPageNumber (prev : Option Char) (l : List Char) : Option ℕ :=
  if wordBoundaryBefore prev then do
    let r1 ← expectLit true "page".data l
    let s := spanCount isWsChar r1
    if s.1 = 0 then none
    else
      let d := spanCount Char.isDigit s.2
      if d.1 = 0 then none
      else
        let bOk := match d.2 with
          | [] => true
          | c :: _ => !isWordChar c
        if bOk then some (matchLen l d.2) else none
  else none

/-- `/©\s*\d{4}[^.]*\./gi`. -/
def matchCopyrightSign (_ : Option Char) (l : List Char) : Option ℕ := do
  let r1 ← expectChar '©' l
  let r2 := (spanCount isWsChar r1).2
  let r3 ← expectDigits 4 r2
  let r4 := (spanCount (fun c => !(c == '.')) r3).2
  let r5 ← expectChar '.' r4
  some (matchLen l r5)

/-- `/copyright\s*\d{4}[^.]*\./gi`. -/
def matchCopyrightWord (_ : Option Char) (l : List Char) : Option ℕ := do
  let r1 ← expectLit true "copyright".data l
  let r2 := (spanCount isWsChar r1).2
  let r3 ← expectDigits 4 r2
  let r4 := (spanCount (fun c => !(c == '.')) r3).2
  let r5 ← expectChar '.' r4
  some (matchLen l r5)

/-- `/\bet\s+al\.\s*,?\s*\d{4}/g`. -/
def matchEtAlYear (prev : Option Char) (l : List Char) : Option ℕ :=
  if wordBoundaryBefore prev then do
    let r1 ← expectLit false "et".data l
    let s1 := spanCount isWsChar r1
    if s1.1 = 0 then none
    else do
      let r2 ← expectLit false "al".data s1.2
      let r3 ← expectChar '.' r2
      let r4 := (spanCount isWsChar r3).2
      let r5 := match expectChar ',' r4 with
        | some r => r
        | none => r4
      let r6 := (spanCount isWsChar r5).2
      let r7 ← expectDigits 4 r6
      some (matchLen l r7)
  else none

/-- `/[*†‡§¶]\d*/g`. -/
def matchFootnoteMark (_ : Option Char) (l : List Char) : Option ℕ :=
  match l with
  | c :: cs =>
    if c == '*' || c == '†' || c == '‡' || c == '§' || c == '¶' then
      some (1 + (spanCount Char.isDigit cs).1)
    else none
  | [] => none

/-- `/ORCID:\s*[\d-]+/gi`. -/
def matchOrcid (_ : Option Char) (l : List Char) : Option ℕ := do
  let r1 ← expectLit true "orcid:".data l
  let r2 := (spanCount isWsChar r1).2
  let d := spanCount (fun c => c.isDigit || c == '-') r2
  if d.1 = 0 then none else some (matchLen l d.2)

/-- `/(?:Received|Accepted|Published|Submitted):\s*[^.]+\./gi`. -/
def matchDateLine (_ : Option Char) (l : List Char) : Option ℕ := do
  let r1 ← (expectLit true "received".data l <|>
      expectLit true "accepted".data l <|>
      expectLit true "published".data l <|>
      expectLit true "submitted".data l)
  let r2 ← expectChar ':' r1
  let r3 := (spanCount isWsChar r2).2
  let s := spanCount (fun c => !(c == '.')) r3
  if s.1 = 0 then none
  else do
    let r4 ← expectChar '.' s.2
    some (matchLen l r4)

/-- `/\*?\s*Corresponding author[.:]?/gi`. -/
def matchCorrespondingAuthor (_ : Option Char) (l : List Char) : Option ℕ :=
  let r1 := match expectChar '*' l with
    | some r => r
    | none => l
  let r2 := (spanCount isWsChar r1).2
  match expectLit true "corresponding author".data r2 with
  | none => none
  | some r3 =>
    let r4 := match r3 with
      | c :: cs => if c == '.' || c == ':' then cs else r3
      | [] => r3
    some (matchLen l r4)

/-- One global deletion pass (`str.replace(re, '')` for a pattern that
never matches empty): scan the original string; on a match of length
`n + 1` drop it and continue after it, otherwise copy one character.
`prev` is the preceding character of the ORIGINAL string (`\b` / `^m`
contexts are judged on it, as in JS, where replacement happens after all
matches are found). Fuel: every step consumes at least one character, so
the initial length suffices. -/
def gsubF (matchAt : Option Char → List Char → Option ℕ) :
    ℕ → Option Char → List Char → List Char
  | 0, _, rest => rest
  | fuel + 1, prev, l =>
    match l with
    | [] => []
    | c :: cs =>
      match matchAt prev (c :: cs) with
      | some (n + 1) =>
        gsubF matchAt fuel (some ((c :: cs).getD n c)) (cs.drop n)
      | _ => c :: gsubF matchAt fuel (some c) cs

/-- A whole `replace(re, '')` pass over a string's characters. -/
def gsub (matchAt : Option Char → List Char → Option ℕ)
    (l : List Char) : List Char :=
  gsubF matchAt l.length none l

/-- `replace(/\s+/g, ' ')`: every whitespace run becomes one space (the
recursion keeps a run's final character, emitted as `' '`, and drops the
earlier ones — the same result). -/
def collapseWs : List Char → List Char
  | [] => []
  | [c] => if isWsChar c then [' '] else [c]
  | c1 :: c2 :: rest =>
    if isWsChar c1 && isWsChar c2 then collapseWs (c2 :: rest)
    else (if isWsChar c1 then ' ' else c1) :: collapseWs (c2 :: rest)

/-- The twenty deletion passes of `cleanTextForTTS`, in source order. -/
def removalStages : List (List Char → List Char) :=
  [gsub matchEmail, gsub matchHttpUrl, gsub matchWwwUrl, gsub matchDoi,
   gsub matchBareDoi, gsub matchArxiv, gsub matchBracketCitation,
   gsub matchAuthorYear, gsub matchAuthorAndAuthor, gsub matchLineNumberRun,
   gsub matchMidLineNumber, gsub matchLeadingLineNumber, gsub matchPageNumber,
   gsub matchCopyrightSign, gsub matchCopyrightWord, gsub matchEtAlYear,
   gsub matchFootnoteMark, gsub matchOrcid, gsub matchDateLine,
   gsub matchCorrespondingAuthor]

/-- `cleanTextForTTS` on the character list: the falsy-input guard, the
twenty deletion passes, whitespace collapse, trim. -/
def cleanData (l : List Char) : List Char :=
  if l.isEmpty then []
  else trimL (collapseWs (removalStages.foldl (fun acc f => f acc) l))

/-- `cleanTextForTTS` from `geminiService.ts`. -/
def cleanTextForTTS (s : String) : String :=
  String.mk (cleanData s.data)

example : cleanTextForTTS "[1[2]]" = "[1]" := by decide
example : cleanTextForTTS "[1]" = "" := by decide
example : cleanTextForTTS "Hello world." = "Hello world." := by decide
example : cleanTextForTTS "a@b.cd rest" = "rest" := by decide
example : cleanTextForTTS "see [1,2] and [3-5] ok" = "see and ok" := by decide
example : cleanTextForTTS "word (Smith et al., 2023) tail" = "word tail" := by decide
example : cleanTextForTTS "  spaced   out  " = "spaced out" := by decide
example : cleanTextForTTS "visit https://x.y/z now" = "visit now" := by decide
example : cleanTextForTTS "Page 12 ok" = "ok" := by decide
example : cleanTextForTTS "" = "" := by decide
example : (∀ f ∈ removalStages, f (cleanTextForTTS "Hello world.").data = (cleanTextForTTS "Hello world.").data) := by decide


lemma foldl_apply_fixed (fs : List (List Char → List Char)) (a : List Char)
    (h : ∀ f ∈ fs, f a = a) : fs.foldl (fun acc f => f acc) a = a := by
  induction fs with
  | nil => rfl
  | cons f fs ih =>
    simp only [List.foldl_cons, h f (List.mem_cons_self _ _)]
    exact ih (fun g hg => h g (List.mem_cons_of_mem _ hg))

/-- A collapsed string: every whitespace character is a plain space and
no two whitespace characters are adjacent. -/
def CollapsedP (l : List Char) : Prop :=
  (∀ c ∈ l, isWsChar c = true → c = ' ') ∧
  List.Chain' (fun a b => ¬(isWsChar a = true ∧ isWsChar b = true)) l

lemma collapseWs_head_not_ws (c : Char) (rest : List Char)
    (hc : isWsChar c = false) :
    ∃ tl, collapseWs (c :: rest) = c :: tl := by
  cases rest with
  | nil => exact ⟨[], by simp [collapseWs, hc]⟩
  | cons c2 r => exact ⟨collapseWs (c2 :: r), by simp [collapseWs, hc]⟩

lemma collapseWs_mem_ws (l : List Char) :
    ∀ c ∈ collapseWs l, isWsChar c = true → c = ' ' := by
  induction l with
  | nil => simp [collapseWs]
  | cons c1 tl ih =>
    cases tl with
    | nil =>
      intro c hc hws
      by_cases h : isWsChar c1 = true
      · simp only [collapseWs, h, if_true, List.mem_singleton] at hc
        exact hc
      · simp only [collapseWs, h, Bool.false_eq_true, if_false,
          List.mem_singleton] at hc
        subst hc
        rw [hws] at h
        exact absurd rfl h
    | cons c2 rest =>
      intro c hc hws
      by_cases h12 : isWsChar c1 && isWsChar c2
      · rw [show collapseWs (c1 :: c2 :: rest) = collapseWs (c2 :: rest) from
          by simp [collapseWs, h12]] at hc
        exact ih c hc hws
      · rw [show collapseWs (c1 :: c2 :: rest) =
            (if isWsChar c1 then ' ' else c1) :: collapseWs (c2 :: rest) from
          by rw [collapseWs, if_neg (by simpa using h12)]] at hc
        rcases List.mem_cons.1 hc with rfl | hc'
        · by_cases h1 : isWsChar c1 = true
          · rw [if_pos h1]
          · rw [if_neg h1]
            rw [if_neg h1] at hws
            rw [hws] at h1
            exact absurd rfl h1
        · exact ih c hc' hws

lemma collapseWs_chain (l : List Char) :
    List.Chain' (fun a b => ¬(isWsChar a = true ∧ isWsChar b = true))
      (collapseWs l) := by
  induction l with
  | nil => simp [collapseWs]
  | cons c1 tl ih =>
    cases tl with
    | nil =>
      by_cases h : isWsChar c1 = true <;> simp [collapseWs, h]
    | cons c2 rest =>
      by_cases h1 : isWsChar c1 = true
      · by_cases h2 : isWsChar c2 = true
        · rw [show collapseWs (c1 :: c2 :: rest) = collapseWs (c2 :: rest) from
            by simp [collapseWs, h1, h2]]
          exact ih
        · obtain ⟨tl', htl⟩ := collapseWs_head_not_ws c2 rest
            (by simpa using h2)
          rw [show collapseWs (c1 :: c2 :: rest) =
              ' ' :: collapseWs (c2 :: rest) from
            by simp [collapseWs, h1, h2]]
          rw [htl, List.chain'_cons]
          refine ⟨fun hcon => ?_, by rw [← htl]; exact ih⟩
          exact h2 hcon.2
      · rw [show collapseWs (c1 :: c2 :: rest) =
            c1 :: collapseWs (c2 :: rest) from
          by simp [collapseWs, h1]]
        rw [List.chain'_cons']
        refine ⟨fun y _ hcon => ?_, ih⟩
        exact h1 hcon.1

lemma collapseWs_eq_self (l : List Char) (h : CollapsedP l) :
    collapseWs l = l := by
  induction l with
  | nil => rfl
  | cons c1 tl ih =>
    have htlP : CollapsedP tl := ⟨fun c hc => h.1 c (List.mem_cons_of_mem _ hc), h.2.tail⟩
    cases tl with
    | nil =>
      by_cases h1 : isWsChar c1 = true
      · have := h.1 c1 (List.mem_cons_self _ _) h1
        simp [collapseWs, h1, this]
      · simp [collapseWs, h1]
    | cons c2 rest =>
      have hpair : ¬(isWsChar c1 = true ∧ isWsChar c2 = true) :=
        (List.chain'_cons.1 h.2).1
      by_cases h1 : isWsChar c1 = true
      · have h2 : isWsChar c2 = false := by
          by_contra hc
          exact hpair ⟨h1, by simpa using hc⟩
        have hsp := h.1 c1 (List.mem_cons_self _ _) h1
        rw [show collapseWs (c1 :: c2 :: rest) =
            (if isWsChar c1 then ' ' else c1) :: collapseWs (c2 :: rest) from
          by rw [collapseWs, if_neg (by simp [h2])]]
        rw [if_pos h1, hsp, ih htlP]
      · rw [show collapseWs (c1 :: c2 :: rest) =
            (if isWsChar c1 then ' ' else c1) :: collapseWs (c2 :: rest) from
          by rw [collapseWs, if_neg (by simp [h1])]]
        rw [if_neg h1, ih htlP]

lemma CollapsedP_trimL (l : List Char) (h : CollapsedP l) :
    CollapsedP (trimL l) := by
  constructor
  · intro c hc hws
    exact h.1 c
      ((List.dropWhile_suffix isWsChar).subset
        ((List.rdropWhile_prefix isWsChar _).subset hc)) hws
  · have hd : List.Chain' (fun a b => ¬(isWsChar a = true ∧ isWsChar b = true))
        (List.dropWhile isWsChar l) :=
      h.2.suffix (List.dropWhile_suffix isWsChar)
    obtain ⟨t, ht⟩ := List.rdropWhile_prefix isWsChar (List.dropWhile isWsChar l)
    rw [← ht] at hd
    exact hd.left_of_append

lemma collapseWs_trimL_collapseWs (z : List Char) :
    collapseWs (trimL (collapseWs z)) = trimL (collapseWs z) :=
  collapseWs_eq_self _
    (CollapsedP_trimL _ ⟨collapseWs_mem_ws z, collapseWs_chain z⟩)

/-- Counterexample to claim C4: the normalizer is not idempotent. On
"[1[2]]" the citation pass removes only "[2]" (a global pass scans the
original string), leaving "[1]", which a second application removes
entirely. -/
theorem cleanTextForTTS_not_idempotent :
    cleanTextForTTS (cleanTextForTTS "[1[2]]") ≠ cleanTextForTTS "[1[2]]" := by
  decide

/-- Claim C4 (amended): the normalizer is idempotent on exactly the
inputs whose normalized form no removal pass can shrink further: if every
deletion pass fixes `cleanTextForTTS x`, then
`cleanTextForTTS (cleanTextForTTS x) = cleanTextForTTS x` (the collapse
and trim stages are always idempotent); in general a second application
can remove more, as "[1[2]]" shows. -/
theorem cleanTextForTTS_idempotent_when_stable (x : String)
    (hstable : ∀ f ∈ removalStages,
        f (cleanTextForTTS x).data = (cleanTextForTTS x).data) :
    cleanTextForTTS (cleanTextForTTS x) = cleanTextForTTS x := by
  show String.mk (cleanData (cleanData x.data)) = String.mk (cleanData x.data)
  congr 1
  by_cases hempty : (cleanData x.data).isEmpty = true
  · rw [List.isEmpty_iff.mp hempty]
    rfl
  · have hstable' : ∀ f ∈ removalStages,
        f (cleanData x.data) = cleanData x.data := hstable
    show (if (cleanData x.data).isEmpty then []
        else trimL (collapseWs (removalStages.foldl (fun acc f => f acc)
          (cleanData x.data)))) = cleanData x.data
    rw [if_neg hempty]
    rw [foldl_apply_fixed _ _ hstable']
    by_cases hx : x.data.isEmpty = true
    · exfalso
      apply hempty
      show (cleanData x.data).isEmpty = true
      rw [show cleanData x.data = [] from by rw [cleanData, if_pos hx]]
      rfl
    · rw [show cleanData x.data =
          trimL (collapseWs (removalStages.foldl (fun acc f => f acc) x.data))
        from by rw [cleanData, if_neg hx]]
      rw [collapseWs_trimL_collapseWs, trimL_idem]

/-- Witness for C4 (amended) at a concrete stable input. -/
theorem cleanTextForTTS_idempotent_when_stable_witness :
    (∀ f ∈ removalStages,
        f (cleanTextForTTS "Hello world.").data
          = (cleanTextForTTS "Hello world.").data) ∧
    cleanTextForTTS (cleanTextForTTS "Hello world.") =
      cleanTextForTTS "Hello world." :=
  ⟨by decide, cleanTextForTTS_idempotent_when_stable "Hello world." (by decide)⟩

end PaperReader
